import Mathlib

/-!
Shallow embedding of the route-geometry and timeline-layout core of the
nyu-shuttle-app repository, together with proofs of its specified
properties. JS numbers are modelled by exact rationals, except where IEEE
special values (Infinity, NaN) are observable, where the type JsNum below
carries them explicitly; the trigonometric haversine code is modelled over
the real numbers.
-/

/-- Coordinate object as the mobile map components use it: latitude and
longitude in degrees. -/
structure Coord where
  latitude : ℚ
  longitude : ℚ
  deriving DecidableEq

/-- Stop record from mobile/src/services/api.ts (stop_description is never
read by the embedded code and is omitted). -/
structure Stop where
  stop_id : ℤ
  stop_name : String
  lat : ℚ
  lon : ℚ
  deriving DecidableEq

/-- JS Array.prototype.findIndex: index of the first element satisfying the
predicate, and -1 when no element does. -/
def jsFindIndex (p : α → Bool) : List α → ℤ
  | [] => -1
  | x :: xs =>
      if p x then 0
      else if jsFindIndex p xs = -1 then -1 else jsFindIndex p xs + 1

/-- JS Array.prototype.slice with nonnegative bounds: the elements from
index b (inclusive) to index e (exclusive). -/
def jsSlice (l : List α) (b e : ℕ) : List α :=
  (l.drop b).take (e - b)

/-- Fallback stop list of getStopsBetween (api.ts): the from stop and the to
stop looked up in the catalog, keeping only those found, origin first. This
models the JS expression [fromStop, toStop].filter(Boolean). -/
def stopsFallback (allStops : List Stop) (fromStopId toStopId : ℤ) : List Stop :=
  [allStops.find? (fun s => s.stop_id == fromStopId),
   allStops.find? (fun s => s.stop_id == toStopId)].filterMap id

/-- Embedding of getStopsBetween from mobile/src/services/api.ts. The trip
stop listing is passed in as tripStops: it is the result of getTripStops,
which itself returns the empty list on any lookup failure, so the empty
list also stands for a failed per-trip lookup. The surrounding try/catch of
the source is unreachable in this model because every sub-step is total. -/
def getStopsBetween (tripStops allStops : List Stop) (fromStopId toStopId : ℤ) :
    List Stop :=
  if tripStops.length = 0 then stopsFallback allStops fromStopId toStopId
  else
    let fromIndex := jsFindIndex (fun s => s.stop_id == fromStopId) tripStops
    let toIndex := jsFindIndex (fun s => s.stop_id == toStopId) tripStops
    if fromIndex = -1 ∨ toIndex = -1 then stopsFallback allStops fromStopId toStopId
    else if fromIndex ≤ toIndex then
      jsSlice tripStops fromIndex.toNat (toIndex.toNat + 1)
    else
      (jsSlice tripStops toIndex.toNat (fromIndex.toNat + 1)).reverse

/-- Outcome of one OSRM round trip as fetchOSRMRoute observes it: the
transport layer throws, or the response arrives with a non-ok status, or a
JSON body arrives carrying a status code string and an optional route list;
each route is its GeoJSON coordinate list with pairs in longitude-first
order. -/
inductive OsrmOutcome where
  | transportError : OsrmOutcome
  | httpError : ℕ → OsrmOutcome
  | body : String → Option (List (List (ℚ × ℚ))) → OsrmOutcome
  deriving DecidableEq

/-- Failure condition of fetchOSRMRoute: a thrown transport error, a non-ok
response, a code different from Ok, a missing route list, or an empty route
list. -/
def OsrmOutcome.isFailure : OsrmOutcome → Bool
  | .transportError => true
  | .httpError _ => true
  | .body code routes => (code != "Ok") || routes.isNone || ((routes.getD []).length == 0)

/-- Embedding of fetchOSRMRoute from mobile/src/components/Map.tsx lines
98-138, with the network outcome passed explicitly: on any failure the
straight two-point line between the endpoints is returned, otherwise the
first route's coordinates swapped to latitude-first order. -/
def fetchOSRMRoute (fromLat fromLon toLat toLon : ℚ) (o : OsrmOutcome) : List Coord :=
  match o with
  | .body code routes =>
      if (code != "Ok") || routes.isNone || ((routes.getD []).length == 0) then
        [⟨fromLat, fromLon⟩, ⟨toLat, toLon⟩]
      else
        ((routes.getD []).headD []).map (fun p => ⟨p.2, p.1⟩)
  | _ => [⟨fromLat, fromLon⟩, ⟨toLat, toLon⟩]

/-- One awaited fetchOSRMRoute call keyed by its endpoint arguments, with
outcomeOf giving the response of the external service for each call. -/
def osrmFetch (outcomeOf : ℚ → ℚ → ℚ → ℚ → OsrmOutcome)
    (fromLat fromLon toLat toLon : ℚ) : List Coord :=
  fetchOSRMRoute fromLat fromLon toLat toLon (outcomeOf fromLat fromLon toLat toLon)

/-- Tail of the stitching loop of convertPlanToSegments (Map.tsx lines
177-193): for every stop pair after the first, the sub-polyline with its
first point dropped (the source pushes segmentPoints.slice(1)). -/
def buildTransitTail (fetch : ℚ → ℚ → ℚ → ℚ → List Coord) : Stop → List Stop → List Coord
  | _, [] => []
  | s, t :: rest => (fetch s.lat s.lon t.lat t.lon).drop 1 ++ buildTransitTail fetch t rest

/-- Stitching loop of convertPlanToSegments (Map.tsx lines 177-193): one
sub-polyline per consecutive stop pair, the first kept whole and every later
one with its first point dropped. -/
def buildTransitPoints (fetch : ℚ → ℚ → ℚ → ℚ → List Coord) : List Stop → List Coord
  | [] => []
  | [_] => []
  | s1 :: s2 :: rest => fetch s1.lat s1.lon s2.lat s2.lon ++ buildTransitTail fetch s2 rest

/-- Modelled from the spec: stitching concatenates all sub-polylines into one
ordered point sequence, omitting the first point of every sub-polyline
except the first one. -/
def concatDropHeads : List (List Coord) → List Coord
  | [] => []
  | l :: ls => l ++ (ls.map (fun sub => sub.drop 1)).flatten

/-- Sub-polylines of a stop chain: one fetched polyline per consecutive stop
pair, in travel order. -/
def subPolylines (fetch : ℚ → ℚ → ℚ → ℚ → List Coord) (stops : List Stop) :
    List (List Coord) :=
  (stops.zip stops.tail).map (fun p => fetch p.1.lat p.1.lon p.2.lat p.2.lon)

/-- Coordinate of a stop, latitude first. -/
def coordOfStop (s : Stop) : Coord :=
  ⟨s.lat, s.lon⟩

theorem buildTransitTail_eq (fetch : ℚ → ℚ → ℚ → ℚ → List Coord) :
    ∀ (l : List Stop) (s : Stop),
      buildTransitTail fetch s l
        = ((((s :: l).zip l).map (fun p => fetch p.1.lat p.1.lon p.2.lat p.2.lon)).map
            (fun sub => sub.drop 1)).flatten := by
  intro l
  induction l with
  | nil => intro s; rfl
  | cons t rest ih =>
      intro s
      simp only [buildTransitTail, List.zip_cons_cons, List.map_cons, List.flatten_cons, ih t]

theorem buildTransitPoints_eq_concatDropHeads
    (fetch : ℚ → ℚ → ℚ → ℚ → List Coord) (stops : List Stop) :
    buildTransitPoints fetch stops = concatDropHeads (subPolylines fetch stops) := by
  match stops with
  | [] => rfl
  | [s] => rfl
  | s1 :: s2 :: rest =>
      simp only [buildTransitPoints, subPolylines, List.tail_cons, List.zip_cons_cons,
        List.map_cons, concatDropHeads, buildTransitTail_eq]

/-- Straight-line fetches make the stitched polyline exactly the stop chain
itself: this is the shape of every fetch under total OSRM failure. -/
theorem buildTransitTail_line (g : ℚ → ℚ → ℚ → ℚ → List Coord)
    (hg : ∀ a b c d, g a b c d = [⟨a, b⟩, ⟨c, d⟩]) :
    ∀ (l : List Stop) (s : Stop), buildTransitTail g s l = l.map coordOfStop := by
  intro l
  induction l with
  | nil => intro s; rfl
  | cons t rest ih =>
      intro s
      simp only [buildTransitTail, hg, List.drop, List.map_cons, ih t, coordOfStop]
      rfl

theorem buildTransitPoints_line (g : ℚ → ℚ → ℚ → ℚ → List Coord)
    (hg : ∀ a b c d, g a b c d = [⟨a, b⟩, ⟨c, d⟩])
    (stops : List Stop) (h2 : 2 ≤ stops.length) :
    buildTransitPoints g stops = stops.map coordOfStop := by
  match stops with
  | [] => simp at h2
  | [s] => simp at h2
  | s1 :: s2 :: rest =>
      simp only [buildTransitPoints, hg, buildTransitTail_line g hg, List.map_cons]
      rfl

/-- Segment kind of a plan segment: the TS union type "walk" | "transit". -/
inductive SegmentType where
  | walk : SegmentType
  | transit : SegmentType
  deriving DecidableEq

/-- PlanSegment from mobile/src/services/api.ts (the fields the embedded
code reads; departure and arrival times and route names are never read). -/
structure PlanSegment where
  type : SegmentType
  from_lat : ℚ
  from_lon : ℚ
  to_lat : ℚ
  to_lon : ℚ
  duration_minutes : ℚ
  from_stop_id : Option ℤ := none
  to_stop_id : Option ℤ := none
  trip_id : Option ℤ := none
  deriving DecidableEq

/-- Plan from mobile/src/services/api.ts: estimated_duration_minutes is kept
optional because fetchRouteOptions treats a missing or zero value alike. -/
structure Plan where
  estimated_duration_minutes : Option ℚ := none
  segments : List PlanSegment
  deriving DecidableEq

/-- RouteSegment as the mobile Map component renders it. -/
structure RouteSegment where
  points : List Coord
  color : String
  isDashed : Bool
  deriving DecidableEq

/-- Truthiness of an optional numeric id, as the JS guard
segment.trip_id && segment.from_stop_id && segment.to_stop_id tests it:
present and nonzero. -/
def truthyId : Option ℤ → Bool
  | none => false
  | some n => n != 0

/-- Transit fallback branch of convertPlanToSegments: a single OSRM query
between the segment endpoints, rendered solid blue. -/
def transitFallbackSegment (outcomeOf : ℚ → ℚ → ℚ → ℚ → OsrmOutcome)
    (segment : PlanSegment) : RouteSegment :=
  { points := osrmFetch outcomeOf segment.from_lat segment.from_lon
      segment.to_lat segment.to_lon,
    color := "#3b82f6", isDashed := false }

/-- Embedding of convertPlanToSegments from mobile/src/components/Map.tsx
lines 141-249: outcomeOf gives the OSRM response for each endpoint
quadruple, tripStopsOf the getTripStops result per trip id (the empty list
on lookup failure), allStops the stop catalog held in component state. The
source pushes exactly one RouteSegment per plan segment, so the loop is a
map. -/
def convertPlanToSegments (outcomeOf : ℚ → ℚ → ℚ → ℚ → OsrmOutcome)
    (tripStopsOf : ℤ → List Stop) (allStops : List Stop) (plan : Plan) :
    List RouteSegment :=
  plan.segments.map (fun segment =>
    match segment.type with
    | .walk =>
        { points := osrmFetch outcomeOf segment.from_lat segment.from_lon
            segment.to_lat segment.to_lon,
          color := "#6b7280", isDashed := true }
    | .transit =>
        if truthyId segment.trip_id && truthyId segment.from_stop_id
            && truthyId segment.to_stop_id then
          let routeStops := getStopsBetween (tripStopsOf (segment.trip_id.getD 0))
            allStops (segment.from_stop_id.getD 0) (segment.to_stop_id.getD 0)
          if 2 ≤ routeStops.length then
            { points := buildTransitPoints (osrmFetch outcomeOf) routeStops,
              color := "#3b82f6", isDashed := false }
          else transitFallbackSegment outcomeOf segment
        else transitFallbackSegment outcomeOf segment)

/-- One scheduler event of the route-loading effect: resolution i begins
(its effect body runs), or the promise of resolution i settles. -/
inductive Ev where
  | start : ℕ → Ev
  | finish : ℕ → Ev
  deriving DecidableEq

/-- Mobile Map.tsx route-loading effect (lines 252-325): each effect run
owns a fresh cancelled flag and the cleanup of the previous run sets that
flag before the next run starts, so exactly the latest started resolution
has cancelled = false; a settling promise commits its segments only when
its own flag is still unset. The first argument is the index of the
resolution whose flag is unset; the result lists the committed resolutions
in commit order. -/
def commitsMobile : Option ℕ → List Ev → List ℕ
  | _, [] => []
  | _, Ev.start i :: rest => commitsMobile (some i) rest
  | latest, Ev.finish i :: rest =>
      if latest = some i then i :: commitsMobile latest rest
      else commitsMobile latest rest

/-- Web map route-loading effect (web Map component, lines 137-154): the
effect has no cancellation flag, so every settling promise commits its
segments unconditionally. -/
def commitsWeb : List Ev → List ℕ
  | [] => []
  | Ev.start _ :: rest => commitsWeb rest
  | Ev.finish i :: rest => i :: commitsWeb rest

theorem fetchOSRMRoute_failure (fromLat fromLon toLat toLon : ℚ) (o : OsrmOutcome)
    (h : o.isFailure = true) :
    fetchOSRMRoute fromLat fromLon toLat toLon o = [⟨fromLat, fromLon⟩, ⟨toLat, toLon⟩] := by
  cases o with
  | transportError => rfl
  | httpError s => rfl
  | body code routes =>
      simp only [OsrmOutcome.isFailure] at h
      simp only [fetchOSRMRoute, h, if_true]

/-- Fetch used by the stitch de-duplication example: the first stop pair
yields a three-point sub-polyline, the second its two-point continuation. -/
def exStitchFetch : ℚ → ℚ → ℚ → ℚ → List Coord := fun _ _ _ toLon =>
  if toLon = 2 then [⟨0, 0⟩, ⟨0, 1⟩, ⟨0, 2⟩] else [⟨0, 2⟩, ⟨0, 3⟩]

/-- Three-stop chain of the stitch de-duplication example. -/
def exStitchStops : List Stop :=
  [⟨1, "s0", 0, 0⟩, ⟨2, "s1", 0, 2⟩, ⟨3, "s2", 0, 3⟩]

/-- C3: stitching a transit leg across stops keeps the first sub-polyline
whole and omits the first point of every later sub-polyline; on the 3-stop
example with sub-polylines [(0,0),(0,1),(0,2)] and [(0,2),(0,3)] the
stitched result is exactly [(0,0),(0,1),(0,2),(0,3)], of length 4. -/
theorem stitch_dedup_c3 :
    (∀ (fetch : ℚ → ℚ → ℚ → ℚ → List Coord) (stops : List Stop),
        buildTransitPoints fetch stops = concatDropHeads (subPolylines fetch stops))
      ∧ buildTransitPoints exStitchFetch exStitchStops
          = [⟨0, 0⟩, ⟨0, 1⟩, ⟨0, 2⟩, ⟨0, 3⟩]
      ∧ (buildTransitPoints exStitchFetch exStitchStops).length = 4 :=
  ⟨buildTransitPoints_eq_concatDropHeads, by decide, by decide⟩

/-- C5: the geometry fetch returns exactly the two endpoint points on any
failure (transport error, non-success status, non-Ok code, missing or empty
route list); consequently, when every sub-request fails, the plan resolver
still returns one renderable segment per leg, each with at least 2 points. -/
theorem fetch_fallback_c5 :
    (∀ (fromLat fromLon toLat toLon : ℚ) (o : OsrmOutcome), o.isFailure = true →
        fetchOSRMRoute fromLat fromLon toLat toLon o
          = [⟨fromLat, fromLon⟩, ⟨toLat, toLon⟩])
      ∧ ∀ (outcomeOf : ℚ → ℚ → ℚ → ℚ → OsrmOutcome) (tripStopsOf : ℤ → List Stop)
          (allStops : List Stop) (plan : Plan),
          (∀ a b c d, (outcomeOf a b c d).isFailure = true) →
          (convertPlanToSegments outcomeOf tripStopsOf allStops plan).length
              = plan.segments.length
            ∧ ∀ rs ∈ convertPlanToSegments outcomeOf tripStopsOf allStops plan,
                2 ≤ rs.points.length := by
  refine ⟨fetchOSRMRoute_failure, ?_⟩
  intro outcomeOf tripStopsOf allStops plan hfail
  have hline : ∀ a b c d, osrmFetch outcomeOf a b c d = [⟨a, b⟩, ⟨c, d⟩] := by
    intro a b c d
    exact fetchOSRMRoute_failure a b c d _ (hfail a b c d)
  constructor
  · simp [convertPlanToSegments]
  · intro rs hrs
    simp only [convertPlanToSegments, List.mem_map] at hrs
    obtain ⟨segment, _, rfl⟩ := hrs
    cases htype : segment.type with
    | walk => simp [htype, hline]
    | transit =>
        simp only [htype]
        split
        · split
          · next h2 =>
              simp only [buildTransitPoints_line _ hline _ h2, List.length_map]
              omega
          · simp [transitFallbackSegment, hline]
        · simp [transitFallbackSegment, hline]

/-- Plan of the fallback-guarantee witness: one walk leg and one transit leg
with resolvable stop ids. -/
def exFallbackPlan : Plan :=
  { segments :=
      [⟨.walk, 0, 0, 1, 1, 5, none, none, none⟩,
       ⟨.transit, 1, 1, 2, 2, 10, some 7, some 8, some 3⟩] }

theorem fetch_fallback_c5_witness :
    fetchOSRMRoute 0 0 1 1 OsrmOutcome.transportError = [⟨0, 0⟩, ⟨1, 1⟩]
      ∧ (convertPlanToSegments (fun _ _ _ _ => OsrmOutcome.transportError)
            (fun _ => []) [] exFallbackPlan).length = exFallbackPlan.segments.length
      ∧ ∀ rs ∈ convertPlanToSegments (fun _ _ _ _ => OsrmOutcome.transportError)
            (fun _ => []) [] exFallbackPlan, 2 ≤ rs.points.length :=
  ⟨fetch_fallback_c5.1 0 0 1 1 OsrmOutcome.transportError (by decide),
   (fetch_fallback_c5.2 (fun _ _ _ _ => OsrmOutcome.transportError)
      (fun _ => []) [] exFallbackPlan (fun _ _ _ _ => rfl)).1,
   (fetch_fallback_c5.2 (fun _ _ _ _ => OsrmOutcome.transportError)
      (fun _ => []) [] exFallbackPlan (fun _ _ _ _ => rfl)).2⟩

/-- Index of the resolution whose cancelled flag is still unset after a
prefix of events has been processed. -/
def latestAfter : Option ℕ → List Ev → Option ℕ
  | cur, [] => cur
  | _, Ev.start i :: rest => latestAfter (some i) rest
  | cur, Ev.finish _ :: rest => latestAfter cur rest

theorem commitsMobile_append (l1 : List Ev) :
    ∀ (latest : Option ℕ) (l2 : List Ev),
      commitsMobile latest (l1 ++ l2)
        = commitsMobile latest l1 ++ commitsMobile (latestAfter latest l1) l2 := by
  induction l1 with
  | nil => intro latest l2; rfl
  | cons e rest ih =>
      intro latest l2
      cases e with
      | start i =>
          simp only [List.cons_append, commitsMobile, latestAfter]
          exact ih _ _
      | finish i =>
          simp only [List.cons_append, commitsMobile, latestAfter]
          by_cases h : latest = some i
          · simp [h, ih]
          · simp [h, ih]

theorem mem_commitsMobile_finish {i : ℕ} :
    ∀ (l : List Ev) (latest : Option ℕ), i ∈ commitsMobile latest l → Ev.finish i ∈ l := by
  intro l
  induction l with
  | nil => intro latest h; simp [commitsMobile] at h
  | cons e rest ih =>
      intro latest h
      cases e with
      | start j =>
          exact List.mem_cons_of_mem _ (ih (some j) h)
      | finish j =>
          simp only [commitsMobile] at h
          by_cases hl : latest = some j
          · rw [if_pos hl] at h
            rcases List.mem_cons.mp h with h | h
            · subst h; exact List.mem_cons_self _ _
            · exact List.mem_cons_of_mem _ (ih latest h)
          · rw [if_neg hl] at h
            exact List.mem_cons_of_mem _ (ih latest h)

theorem commitsMobile_not_mem {i : ℕ} :
    ∀ (l : List Ev) (latest : Option ℕ), Ev.start i ∉ l → latest ≠ some i →
      i ∉ commitsMobile latest l := by
  intro l
  induction l with
  | nil => intro latest _ _ h; simp [commitsMobile] at h
  | cons e rest ih =>
      intro latest hs hl h
      cases e with
      | start j =>
          have hji : some j ≠ some i := by
            intro hc
            exact hs (by simp [Option.some_inj.mp hc])
          exact ih (some j) (fun hc => hs (List.mem_cons_of_mem _ hc)) hji h
      | finish j =>
          simp only [commitsMobile] at h
          by_cases hlj : latest = some j
          · rw [if_pos hlj] at h
            rcases List.mem_cons.mp h with h | h
            · exact hl (h ▸ hlj)
            · exact ih latest (fun hc => hs (List.mem_cons_of_mem _ hc)) hl h
          · rw [if_neg hlj] at h
            exact ih latest (fun hc => hs (List.mem_cons_of_mem _ hc)) hl h

/-- C6 (amended, mobile component): a resolution i superseded by a later
resolution j before its promise settles is never committed: with no finish
event of i before the start of j, and i never restarted, i is absent from
the commit list of any such interleaving. -/
theorem mobile_stale_discarded (pre mid post : List Ev) (i j : ℕ)
    (hij : i ≠ j)
    (hfpre : Ev.finish i ∉ pre) (hfmid : Ev.finish i ∉ mid)
    (hspost : Ev.start i ∉ post) :
    i ∉ commitsMobile none (pre ++ Ev.start i :: mid ++ Ev.start j :: post) := by
  intro hmem
  rw [List.append_assoc, commitsMobile_append pre,
    commitsMobile_append (Ev.start i :: mid)] at hmem
  simp only [commitsMobile] at hmem
  rcases List.mem_append.mp hmem with h | h
  · exact hfpre (mem_commitsMobile_finish pre none h)
  rcases List.mem_append.mp h with h | h
  · exact hfmid (mem_commitsMobile_finish mid (some i) h)
  · exact commitsMobile_not_mem post (some j) hspost
      (fun hc => hij (Option.some_inj.mp hc).symm) h

theorem mobile_stale_discarded_witness :
    (0 : ℕ) ∉ commitsMobile none
      [Ev.start 0, Ev.start 1, Ev.finish 1, Ev.finish 0] :=
  mobile_stale_discarded [] [] [Ev.finish 1, Ev.finish 0] 0 1
    (by decide) (by decide) (by decide) (by decide)

/-- C6 counterexample (web component): the web route-loading effect has no
cancellation flag, so in the interleaving where resolution 1 starts before
resolution 0 settles and resolution 0 settles last, the superseded
resolution 0 is still committed (and ends up displayed). -/
theorem web_stale_committed_cex :
    commitsWeb [Ev.start 0, Ev.start 1, Ev.finish 1, Ev.finish 0] = [1, 0]
      ∧ 0 ∈ commitsWeb [Ev.start 0, Ev.start 1, Ev.finish 1, Ev.finish 0] := by
  exact ⟨rfl, by decide⟩

theorem jsFindIndex_ge (p : α → Bool) : ∀ (l : List α), -1 ≤ jsFindIndex p l := by
  intro l
  induction l with
  | nil => simp [jsFindIndex]
  | cons x xs ih =>
      simp only [jsFindIndex]
      split
      · omega
      · split
        · omega
        · omega

theorem jsFindIndex_spec (p : α → Bool) :
    ∀ (l : List α) (i : ℕ), jsFindIndex p l = (i : ℤ) →
      i < l.length ∧ (∀ s, l[i]? = some s → p s = true)
        ∧ ∀ k, k < i → ∀ t, l[k]? = some t → p t = false := by
  intro l
  induction l with
  | nil =>
      intro i h
      simp only [jsFindIndex] at h
      omega
  | cons x xs ih =>
      intro i h
      by_cases hx : p x
      · simp only [jsFindIndex, if_pos hx] at h
        have hi : i = 0 := by omega
        subst hi
        refine ⟨by simp, ?_, by omega⟩
        intro s hs
        simp only [List.getElem?_cons_zero, Option.some_inj] at hs
        exact hs ▸ hx
      · simp only [jsFindIndex, if_neg hx] at h
        by_cases hr : jsFindIndex p xs = -1
        · rw [if_pos hr] at h
          omega
        · rw [if_neg hr] at h
          have hge := jsFindIndex_ge p xs
          have hi1 : 1 ≤ i := by omega
          obtain ⟨i', rfl⟩ : ∃ i', i = i' + 1 := ⟨i - 1, by omega⟩
          have hxs : jsFindIndex p xs = (i' : ℤ) := by omega
          obtain ⟨hlen, hat, hbefore⟩ := ih i' hxs
          refine ⟨by simpa using Nat.succ_lt_succ hlen, ?_, ?_⟩
          · intro s hs
            rw [List.getElem?_cons_succ] at hs
            exact hat s hs
          · intro k hk t htk
            match k with
            | 0 =>
                simp only [List.getElem?_cons_zero, Option.some_inj] at htk
                rw [← htk]
                simpa using hx
            | k' + 1 =>
                rw [List.getElem?_cons_succ] at htk
                exact hbefore k' (by omega) t htk

theorem jsSlice_getElem? (l : List α) (b e k : ℕ) (hk : k < e - b) :
    (jsSlice l b e)[k]? = l[b + k]? := by
  simp only [jsSlice]
  rw [List.getElem?_take, if_pos hk, List.getElem?_drop]

theorem jsSlice_length (l : List α) (b e : ℕ) :
    (jsSlice l b e).length = min (e - b) (l.length - b) := by
  simp [jsSlice]

theorem getStopsBetween_found (tripStops allStops : List Stop)
    (fromStopId toStopId : ℤ) (i j : ℕ)
    (hf : jsFindIndex (fun s => s.stop_id == fromStopId) tripStops = (i : ℤ))
    (ht : jsFindIndex (fun s => s.stop_id == toStopId) tripStops = (j : ℤ)) :
    getStopsBetween tripStops allStops fromStopId toStopId
      = if i ≤ j then jsSlice tripStops i (j + 1)
        else (jsSlice tripStops j (i + 1)).reverse := by
  have hlen : ¬tripStops.length = 0 := by
    have := (jsFindIndex_spec _ tripStops i hf).1
    omega
  simp only [getStopsBetween, hf, ht, if_neg hlen]
  rw [if_neg (by omega : ¬((i : ℤ) = -1 ∨ (j : ℤ) = -1))]
  by_cases hij : i ≤ j
  · rw [if_pos (by exact_mod_cast hij : (i : ℤ) ≤ (j : ℤ)), if_pos hij,
      Int.toNat_natCast, Int.toNat_natCast]
  · rw [if_neg (fun hc => hij (by exact_mod_cast hc)), if_neg hij,
      Int.toNat_natCast, Int.toNat_natCast]

theorem jsSlice_rev_head (l : List α) (b e : ℕ) (hb : b < e) (he : e ≤ l.length) :
    ((jsSlice l b e).reverse.head? = l[e - 1]?)
      ∧ (jsSlice l b e).reverse.getLast? = l[b]? := by
  have hlen : (jsSlice l b e).length = e - b := by
    rw [jsSlice_length]
    omega
  constructor
  · rw [List.head?_reverse, List.getLast?_eq_getElem?, hlen,
      jsSlice_getElem? l b e (e - b - 1) (by omega)]
    congr 1
    omega
  · rw [List.getLast?_reverse, List.head?_eq_getElem?,
      jsSlice_getElem? l b e 0 (by omega)]
    congr 1

/-- C4: when both stop ids occur in the per-trip listing, the inclusive
slice is returned in listing order when the origin index is not greater;
when the destination index precedes the origin index the slice is reversed,
so the list (and, stitched with endpoint-anchored sub-polylines, the
polyline) starts at the origin stop and ends at the destination stop. -/
theorem getStopsBetween_directional_c4
    (tripStops allStops : List Stop) (fromStopId toStopId : ℤ) (i j : ℕ)
    (hf : jsFindIndex (fun s => s.stop_id == fromStopId) tripStops = (i : ℤ))
    (ht : jsFindIndex (fun s => s.stop_id == toStopId) tripStops = (j : ℤ)) :
    (i ≤ j → getStopsBetween tripStops allStops fromStopId toStopId
        = jsSlice tripStops i (j + 1))
    ∧ (j < i →
        getStopsBetween tripStops allStops fromStopId toStopId
          = (jsSlice tripStops j (i + 1)).reverse
        ∧ ∃ sFrom sTo, tripStops[i]? = some sFrom ∧ tripStops[j]? = some sTo
            ∧ sFrom.stop_id = fromStopId ∧ sTo.stop_id = toStopId
            ∧ (getStopsBetween tripStops allStops fromStopId toStopId).head?
                = some sFrom
            ∧ (getStopsBetween tripStops allStops fromStopId toStopId).getLast?
                = some sTo
            ∧ ∀ g : ℚ → ℚ → ℚ → ℚ → List Coord,
                (∀ a b c d, g a b c d = [⟨a, b⟩, ⟨c, d⟩]) →
                (buildTransitPoints g
                    (getStopsBetween tripStops allStops fromStopId toStopId)).head?
                    = some ⟨sFrom.lat, sFrom.lon⟩
                  ∧ (buildTransitPoints g
                      (getStopsBetween tripStops allStops fromStopId toStopId)).getLast?
                    = some ⟨sTo.lat, sTo.lon⟩) := by
  have hmain := getStopsBetween_found tripStops allStops fromStopId toStopId i j hf ht
  obtain ⟨hiLen, hiAt, _⟩ := jsFindIndex_spec _ tripStops i hf
  obtain ⟨hjLen, hjAt, _⟩ := jsFindIndex_spec _ tripStops j ht
  constructor
  · intro hij
    rw [hmain, if_pos hij]
  · intro hji
    have hres : getStopsBetween tripStops allStops fromStopId toStopId
        = (jsSlice tripStops j (i + 1)).reverse := by
      rw [hmain, if_neg (by omega)]
    refine ⟨hres, ?_⟩
    rcases hEx : tripStops[i]? with _ | sFrom
    · rw [List.getElem?_eq_none_iff] at hEx
      omega
    rcases hEx2 : tripStops[j]? with _ | sTo
    · rw [List.getElem?_eq_none_iff] at hEx2
      omega
    have hidF : sFrom.stop_id = fromStopId := by
      have := hiAt sFrom hEx
      simpa [beq_iff_eq] using this
    have hidT : sTo.stop_id = toStopId := by
      have := hjAt sTo hEx2
      simpa [beq_iff_eq] using this
    have hrev := jsSlice_rev_head tripStops j (i + 1) (by omega) (by omega)
    have hhead : (getStopsBetween tripStops allStops fromStopId toStopId).head?
        = some sFrom := by
      rw [hres, hrev.1, show i + 1 - 1 = i by omega, hEx]
    have hlast : (getStopsBetween tripStops allStops fromStopId toStopId).getLast?
        = some sTo := by
      rw [hres, hrev.2, hEx2]
    refine ⟨sFrom, sTo, rfl, rfl, hidF, hidT, hhead, hlast, ?_⟩
    intro g hg
    have hlen2 : 2 ≤ (getStopsBetween tripStops allStops fromStopId toStopId).length := by
      rw [hres, List.length_reverse, jsSlice_length]
      omega
    rw [buildTransitPoints_line g hg _ hlen2]
    rw [List.head?_map, List.getLast?_map, hhead, hlast]
    exact ⟨rfl, rfl⟩

/-- Per-trip stop listing of the directional-correction witness: the
destination stop (id 1) is listed before the origin stop (id 3). -/
def exTripStops : List Stop :=
  [⟨1, "a", 10, 20⟩, ⟨2, "b", 30, 40⟩, ⟨3, "c", 50, 60⟩]

theorem getStopsBetween_directional_c4_witness :
    getStopsBetween exTripStops [] 3 1 = (jsSlice exTripStops 0 3).reverse :=
  ((getStopsBetween_directional_c4 exTripStops [] 3 1 2 0 (by decide) (by decide)).2
    (by decide)).1

/-- C10: getStopsBetween is total; with an empty (or failed) per-trip
listing or a stop id missing from it, it returns exactly the origin and
destination stops found in the catalog, origin first, of length at most
two; otherwise it returns the inclusive slice of the trip stops in travel
order. -/
theorem getStopsBetween_total_c10
    (tripStops allStops : List Stop) (fromStopId toStopId : ℤ) :
    (tripStops = [] ∨ jsFindIndex (fun s => s.stop_id == fromStopId) tripStops = -1
        ∨ jsFindIndex (fun s => s.stop_id == toStopId) tripStops = -1 →
      getStopsBetween tripStops allStops fromStopId toStopId
        = stopsFallback allStops fromStopId toStopId)
    ∧ stopsFallback allStops fromStopId toStopId
        = (allStops.find? (fun s => s.stop_id == fromStopId)).toList
          ++ (allStops.find? (fun s => s.stop_id == toStopId)).toList
    ∧ (stopsFallback allStops fromStopId toStopId).length ≤ 2
    ∧ ∀ i j : ℕ,
        jsFindIndex (fun s => s.stop_id == fromStopId) tripStops = (i : ℤ) →
        jsFindIndex (fun s => s.stop_id == toStopId) tripStops = (j : ℤ) →
        getStopsBetween tripStops allStops fromStopId toStopId
          = if i ≤ j then jsSlice tripStops i (j + 1)
            else (jsSlice tripStops j (i + 1)).reverse := by
  refine ⟨?_, ?_, ?_,
    fun i j hf ht => getStopsBetween_found tripStops allStops fromStopId toStopId i j hf ht⟩
  · intro h
    by_cases hlen : tripStops.length = 0
    · simp only [getStopsBetween, if_pos hlen]
    · rcases h with h | h | h
      · exact absurd (by simp [h]) hlen
      · simp only [getStopsBetween, if_neg hlen]
        rw [if_pos (Or.inl h)]
      · simp only [getStopsBetween, if_neg hlen]
        rw [if_pos (Or.inr h)]
  · cases hx : allStops.find? (fun s => s.stop_id == fromStopId) <;>
      cases hy : allStops.find? (fun s => s.stop_id == toStopId) <;>
        simp [stopsFallback, hx, hy]
  · cases hx : allStops.find? (fun s => s.stop_id == fromStopId) <;>
      cases hy : allStops.find? (fun s => s.stop_id == toStopId) <;>
        simp [stopsFallback, hx, hy]

theorem getStopsBetween_total_c10_witness :
    getStopsBetween [] [⟨1, "a", 0, 0⟩] 1 2 = stopsFallback [⟨1, "a", 0, 0⟩] 1 2 :=
  (getStopsBetween_total_c10 [] [⟨1, "a", 0, 0⟩] 1 2).1 (Or.inl rfl)

/-- JS number carrying the IEEE special values that the timeline width
computation can produce; finite values are idealized as exact rationals. -/
inductive JsNum where
  | num : ℚ → JsNum
  | posInf : JsNum
  | negInf : JsNum
  | nan : JsNum
  deriving DecidableEq

/-- JS addition. -/
def JsNum.add : JsNum → JsNum → JsNum
  | nan, _ => nan
  | _, nan => nan
  | num a, num b => num (a + b)
  | posInf, negInf => nan
  | negInf, posInf => nan
  | posInf, _ => posInf
  | _, posInf => posInf
  | negInf, _ => negInf
  | _, negInf => negInf

/-- JS multiplication. -/
def JsNum.mul : JsNum → JsNum → JsNum
  | nan, _ => nan
  | _, nan => nan
  | num a, num b => num (a * b)
  | num a, posInf => if 0 < a then posInf else if a < 0 then negInf else nan
  | posInf, num a => if 0 < a then posInf else if a < 0 then negInf else nan
  | num a, negInf => if 0 < a then negInf else if a < 0 then posInf else nan
  | negInf, num a => if 0 < a then negInf else if a < 0 then posInf else nan
  | posInf, posInf => posInf
  | posInf, negInf => negInf
  | negInf, posInf => negInf
  | negInf, negInf => posInf

/-- JS division; a rational zero stands for JS +0. -/
def JsNum.div : JsNum → JsNum → JsNum
  | nan, _ => nan
  | _, nan => nan
  | num a, num b =>
      if b = 0 then (if a = 0 then nan else if 0 < a then posInf else negInf)
      else num (a / b)
  | num _, posInf => num 0
  | num _, negInf => num 0
  | posInf, num b => if 0 ≤ b then posInf else negInf
  | negInf, num b => if 0 ≤ b then negInf else posInf
  | posInf, posInf => nan
  | posInf, negInf => nan
  | negInf, posInf => nan
  | negInf, negInf => nan

/-- JS strict comparison: every comparison with NaN is false. -/
def JsNum.lt : JsNum → JsNum → Bool
  | nan, _ => false
  | _, nan => false
  | num a, num b => decide (a < b)
  | num _, posInf => true
  | num _, negInf => false
  | posInf, num _ => false
  | negInf, num _ => true
  | posInf, posInf => false
  | posInf, negInf => false
  | negInf, posInf => true
  | negInf, negInf => false

/-- JS Math.max of two values: NaN when either argument is NaN. -/
def JsNum.max2 : JsNum → JsNum → JsNum
  | nan, _ => nan
  | _, nan => nan
  | num a, num b => num (max a b)
  | posInf, _ => posInf
  | _, posInf => posInf
  | negInf, b => b
  | a, negInf => a

/-- Minimum transit segment width of the route option timeline
(BottomSheet.tsx line 831). -/
def MIN_TRANSIT_WIDTH_PERCENT : ℚ := 15

/-- Minimum walk segment width of the route option timeline
(BottomSheet.tsx line 832). -/
def MIN_WALK_WIDTH_PERCENT : ℚ := 8

/-- One object of the width pipeline of renderContent: the width to render,
the segment class, and the raw duration carried along. -/
structure WidthSeg where
  width : JsNum
  isTransit : Bool
  duration : ℚ
  deriving DecidableEq

/-- Finite-valued counterpart of WidthSeg, used to state what the pipeline
computes when no special value arises. -/
structure WidthSegQ where
  width : ℚ
  isTransit : Bool
  duration : ℚ
  deriving DecidableEq

/-- Division-by-zero guard on the total duration (BottomSheet.tsx lines
836-837): totalDuration when positive, else 1. -/
def safeTotalDurationQ (totalDuration : ℚ) : ℚ :=
  if 0 < totalDuration then totalDuration else 1

/-- Step 1 of the renderContent width pipeline (lines 838-850): the true
proportional width per segment, with the segment class and raw duration
carried along. All values here are finite. -/
def trueProportionalWidthsQ (segments : List PlanSegment) (totalDuration : ℚ) :
    List WidthSegQ :=
  segments.map (fun segment =>
    ⟨segment.duration_minutes / safeTotalDurationQ totalDuration * 100,
     segment.type == SegmentType.transit, segment.duration_minutes⟩)

/-- Step 2 (lines 852-861): the smallest transit width, defaulting to the
transit minimum when no transit segment exists; Math.min over a non-empty
argument list is the left fold of the binary minimum. -/
def smallestTransitWidthQ (segments : List PlanSegment) (totalDuration : ℚ) : ℚ :=
  match (trueProportionalWidthsQ segments totalDuration).filter
      (fun seg => seg.isTransit) with
  | [] => MIN_TRANSIT_WIDTH_PERCENT
  | t :: ts => (ts.map (fun seg => seg.width)).foldl min t.width

/-- Step 3 (lines 863-869): the scale-up factor; JS divides by zero here
(giving Infinity) when the smallest transit width is zero, so the result is
a JsNum. -/
def scaleFactorJs (segments : List PlanSegment) (totalDuration : ℚ) : JsNum :=
  if smallestTransitWidthQ segments totalDuration < MIN_TRANSIT_WIDTH_PERCENT then
    (JsNum.num MIN_TRANSIT_WIDTH_PERCENT).div
      (JsNum.num (smallestTransitWidthQ segments totalDuration))
  else JsNum.num 1

/-- Step 4 (lines 871-877): every width multiplied by the scale factor. -/
def scaledWidthsJs (segments : List PlanSegment) (totalDuration : ℚ) : List WidthSeg :=
  (trueProportionalWidthsQ segments totalDuration).map (fun seg =>
    ⟨(JsNum.num seg.width).mul (scaleFactorJs segments totalDuration),
     seg.isTransit, seg.duration⟩)

/-- Step 5 (lines 879-893): the walking floor; transit segments pass
through unchanged. -/
def adjustedWidthsJs (segments : List PlanSegment) (totalDuration : ℚ) : List WidthSeg :=
  (scaledWidthsJs segments totalDuration).map (fun seg =>
    if seg.isTransit then seg
    else ⟨seg.width.max2 (JsNum.num MIN_WALK_WIDTH_PERCENT), seg.isTransit, seg.duration⟩)

/-- Step 6, sum (lines 895-899): the total of the adjusted widths. -/
def totalWidthJs (segments : List PlanSegment) (totalDuration : ℚ) : JsNum :=
  (adjustedWidthsJs segments totalDuration).foldl
    (fun sum seg => sum.add seg.width) (JsNum.num 0)

/-- Embedding of the timeline width computation of renderContent
(BottomSheet.tsx lines 830-908): the final widths after the conditional
uniform down-scale of step 6. -/
def computeFinalWidths (segments : List PlanSegment) (totalDuration : ℚ) :
    List WidthSeg :=
  if (JsNum.num 100).lt (totalWidthJs segments totalDuration) then
    (adjustedWidthsJs segments totalDuration).map (fun seg =>
      ⟨seg.width.mul ((JsNum.num 100).div (totalWidthJs segments totalDuration)),
       seg.isTransit, seg.duration⟩)
  else adjustedWidthsJs segments totalDuration

/-- Finite mirror of step 3, meaningful when the smallest transit width is
nonzero. -/
def scaleFactorQ (segments : List PlanSegment) (totalDuration : ℚ) : ℚ :=
  if smallestTransitWidthQ segments totalDuration < MIN_TRANSIT_WIDTH_PERCENT then
    MIN_TRANSIT_WIDTH_PERCENT / smallestTransitWidthQ segments totalDuration
  else 1

/-- Finite mirror of step 4. -/
def scaledWidthsQ (segments : List PlanSegment) (totalDuration : ℚ) : List WidthSegQ :=
  (trueProportionalWidthsQ segments totalDuration).map (fun seg =>
    ⟨seg.width * scaleFactorQ segments totalDuration, seg.isTransit, seg.duration⟩)

/-- Finite mirror of step 5. -/
def adjustedWidthsQ (segments : List PlanSegment) (totalDuration : ℚ) : List WidthSegQ :=
  (scaledWidthsQ segments totalDuration).map (fun seg =>
    if seg.isTransit then seg
    else ⟨max seg.width MIN_WALK_WIDTH_PERCENT, seg.isTransit, seg.duration⟩)

/-- Finite mirror of the step 6 sum. -/
def totalWidthQ (segments : List PlanSegment) (totalDuration : ℚ) : ℚ :=
  (adjustedWidthsQ segments totalDuration).foldl (fun sum seg => sum + seg.width) 0

/-- Finite mirror of the whole pipeline. -/
def computeFinalWidthsQ (segments : List PlanSegment) (totalDuration : ℚ) :
    List WidthSegQ :=
  if 100 < totalWidthQ segments totalDuration then
    (adjustedWidthsQ segments totalDuration).map (fun seg =>
      ⟨seg.width * (100 / totalWidthQ segments totalDuration),
       seg.isTransit, seg.duration⟩)
  else adjustedWidthsQ segments totalDuration

/-- View of a finite width segment as a JsNum one. -/
def WidthSegQ.lift (s : WidthSegQ) : WidthSeg :=
  ⟨JsNum.num s.width, s.isTransit, s.duration⟩

/-- Embedding of the totalDuration computation of fetchRouteOptions
(BottomSheet.tsx lines 222-236): estimated_duration_minutes with a missing
value read as 0, replaced by the sum of the segment durations when zero and
segments exist, then clamped to at least 1. -/
def computeTotalDuration (plan : Plan) : ℚ :=
  let base : ℚ := plan.estimated_duration_minutes.getD 0
  let total : ℚ :=
    if base = 0 ∧ 0 < plan.segments.length then
      plan.segments.foldl (fun sum segment => sum + segment.duration_minutes) 0
    else base
  max 1 total

theorem scaleFactorJs_eq (segments : List PlanSegment) (totalDuration : ℚ)
    (h : smallestTransitWidthQ segments totalDuration ≠ 0) :
    scaleFactorJs segments totalDuration
      = JsNum.num (scaleFactorQ segments totalDuration) := by
  unfold scaleFactorJs scaleFactorQ
  split
  · simp [JsNum.div, h]
  · rfl

theorem scaledWidthsJs_eq (segments : List PlanSegment) (totalDuration : ℚ)
    (h : smallestTransitWidthQ segments totalDuration ≠ 0) :
    scaledWidthsJs segments totalDuration
      = (scaledWidthsQ segments totalDuration).map WidthSegQ.lift := by
  unfold scaledWidthsJs scaledWidthsQ
  rw [scaleFactorJs_eq segments totalDuration h, List.map_map]
  rfl

theorem adjustedWidthsJs_eq (segments : List PlanSegment) (totalDuration : ℚ)
    (h : smallestTransitWidthQ segments totalDuration ≠ 0) :
    adjustedWidthsJs segments totalDuration
      = (adjustedWidthsQ segments totalDuration).map WidthSegQ.lift := by
  unfold adjustedWidthsJs adjustedWidthsQ
  rw [scaledWidthsJs_eq segments totalDuration h, List.map_map, List.map_map]
  apply List.map_congr_left
  intro seg _
  by_cases ht : seg.isTransit <;>
    simp [WidthSegQ.lift, ht, JsNum.max2, MIN_WALK_WIDTH_PERCENT]

theorem foldl_add_lift (l : List WidthSegQ) :
    ∀ q : ℚ,
      (l.map WidthSegQ.lift).foldl (fun sum seg => sum.add seg.width) (JsNum.num q)
        = JsNum.num (l.foldl (fun sum seg => sum + seg.width) q) := by
  induction l with
  | nil => intro q; rfl
  | cons s rest ih =>
      intro q
      simp only [List.map_cons, List.foldl_cons]
      exact ih (q + s.width)

theorem totalWidthJs_eq (segments : List PlanSegment) (totalDuration : ℚ)
    (h : smallestTransitWidthQ segments totalDuration ≠ 0) :
    totalWidthJs segments totalDuration
      = JsNum.num (totalWidthQ segments totalDuration) := by
  unfold totalWidthJs totalWidthQ
  rw [adjustedWidthsJs_eq segments totalDuration h, foldl_add_lift]

theorem computeFinalWidths_eq (segments : List PlanSegment) (totalDuration : ℚ)
    (h : smallestTransitWidthQ segments totalDuration ≠ 0) :
    computeFinalWidths segments totalDuration
      = (computeFinalWidthsQ segments totalDuration).map WidthSegQ.lift := by
  unfold computeFinalWidths computeFinalWidthsQ
  rw [totalWidthJs_eq segments totalDuration h, adjustedWidthsJs_eq segments totalDuration h]
  by_cases hT : 100 < totalWidthQ segments totalDuration
  · rw [if_pos, if_pos hT]
    · rw [List.map_map, List.map_map]
      apply List.map_congr_left
      intro seg _
      have hT0 : totalWidthQ segments totalDuration ≠ 0 := by
        intro hc
        rw [hc] at hT
        norm_num at hT
      simp [WidthSegQ.lift, JsNum.div, JsNum.mul, hT0]
    · simp [JsNum.lt, hT]
  · rw [if_neg, if_neg hT]
    · simp [JsNum.lt, hT]

theorem foldlMin_mem (l : List ℚ) : ∀ a : ℚ, l.foldl min a ∈ a :: l := by
  induction l with
  | nil => intro a; simp
  | cons x xs ih =>
      intro a
      simp only [List.foldl_cons]
      rcases min_choice a x with hm | hm <;> rw [hm]
      · rcases List.mem_cons.mp (ih a) with h | h <;> simp [h]
      · rcases List.mem_cons.mp (ih x) with h | h <;> simp [h]

theorem foldlMin_le (l : List ℚ) : ∀ a x : ℚ, x ∈ a :: l → l.foldl min a ≤ x := by
  induction l with
  | nil =>
      intro a x hx
      simp only [List.mem_singleton] at hx
      simp [hx]
  | cons y ys ih =>
      intro a x hx
      simp only [List.foldl_cons]
      have hbase := ih (min a y) (min a y) (List.mem_cons_self _ _)
      rcases List.mem_cons.mp hx with h | h
      · subst h
        exact le_trans hbase (min_le_left _ _)
      rcases List.mem_cons.mp h with h | h
      · subst h
        exact le_trans hbase (min_le_right _ _)
      · exact ih (min a y) x (List.mem_cons_of_mem _ h)

theorem safeTotalDurationQ_pos (totalDuration : ℚ) : 0 < safeTotalDurationQ totalDuration := by
  unfold safeTotalDurationQ
  split
  · assumption
  · norm_num

theorem trueProportional_pos (segments : List PlanSegment) (totalDuration : ℚ)
    (hpos : ∀ seg ∈ segments, seg.type = SegmentType.transit → 0 < seg.duration_minutes) :
    ∀ e ∈ trueProportionalWidthsQ segments totalDuration,
      e.isTransit = true → 0 < e.width := by
  intro e he ht
  simp only [trueProportionalWidthsQ, List.mem_map] at he
  obtain ⟨seg, hseg, rfl⟩ := he
  simp only at ht ⊢
  have htype : seg.type = SegmentType.transit := by simpa [beq_iff_eq] using ht
  have hd := hpos seg hseg htype
  have hst := safeTotalDurationQ_pos totalDuration
  have : 0 < seg.duration_minutes / safeTotalDurationQ totalDuration := div_pos hd hst
  nlinarith

theorem smallestTransit_facts (segments : List PlanSegment) (totalDuration : ℚ)
    (hpos : ∀ seg ∈ segments, seg.type = SegmentType.transit → 0 < seg.duration_minutes) :
    0 < smallestTransitWidthQ segments totalDuration
      ∧ ∀ e ∈ trueProportionalWidthsQ segments totalDuration, e.isTransit = true →
          smallestTransitWidthQ segments totalDuration ≤ e.width := by
  have hmem := trueProportional_pos segments totalDuration hpos
  rcases hfil : (trueProportionalWidthsQ segments totalDuration).filter
      (fun seg => seg.isTransit) with _ | ⟨t, ts⟩
  · have hval : smallestTransitWidthQ segments totalDuration
        = MIN_TRANSIT_WIDTH_PERCENT := by
      unfold smallestTransitWidthQ
      rw [hfil]
    constructor
    · rw [hval]
      norm_num [MIN_TRANSIT_WIDTH_PERCENT]
    · intro e he ht
      have hin : e ∈ (trueProportionalWidthsQ segments totalDuration).filter
          (fun seg => seg.isTransit) := List.mem_filter.mpr ⟨he, by simpa using ht⟩
      rw [hfil] at hin
      simp at hin
  · have hval : smallestTransitWidthQ segments totalDuration
        = (ts.map (fun seg => seg.width)).foldl min t.width := by
      unfold smallestTransitWidthQ
      rw [hfil]
    have hsub : ∀ x ∈ t.width :: ts.map (fun seg => seg.width), 0 < x := by
      intro x hx
      rcases List.mem_cons.mp hx with h | hx
      · have hin : t ∈ (trueProportionalWidthsQ segments totalDuration).filter
            (fun seg => seg.isTransit) := by
          rw [hfil]
          exact List.mem_cons_self _ _
        obtain ⟨hmem2, htr⟩ := List.mem_filter.mp hin
        exact h ▸ hmem t hmem2 (by simpa using htr)
      · obtain ⟨e, he, rfl⟩ := List.mem_map.mp hx
        have hin : e ∈ (trueProportionalWidthsQ segments totalDuration).filter
            (fun seg => seg.isTransit) := by
          rw [hfil]
          exact List.mem_cons_of_mem _ he
        obtain ⟨hmem2, htr⟩ := List.mem_filter.mp hin
        exact hmem e hmem2 (by simpa using htr)
    constructor
    · rw [hval]
      exact hsub _ (foldlMin_mem (ts.map (fun seg => seg.width)) t.width)
    · intro e he ht
      have hin : e ∈ (trueProportionalWidthsQ segments totalDuration).filter
          (fun seg => seg.isTransit) := List.mem_filter.mpr ⟨he, by simpa using ht⟩
      rw [hfil] at hin
      rw [hval]
      apply foldlMin_le
      rcases List.mem_cons.mp hin with h | hin
      · rw [h]
        exact List.mem_cons_self _ _
      · exact List.mem_cons_of_mem _ (List.mem_map_of_mem _ hin)

theorem scaled_transit_ge (segments : List PlanSegment) (totalDuration : ℚ)
    (hpos : ∀ seg ∈ segments, seg.type = SegmentType.transit → 0 < seg.duration_minutes) :
    ∀ e ∈ scaledWidthsQ segments totalDuration, e.isTransit = true →
      MIN_TRANSIT_WIDTH_PERCENT ≤ e.width := by
  obtain ⟨hsm, hle⟩ := smallestTransit_facts segments totalDuration hpos
  intro e he ht
  simp only [scaledWidthsQ, List.mem_map] at he
  obtain ⟨e0, he0, rfl⟩ := he
  simp only at ht ⊢
  have hw := hle e0 he0 ht
  unfold scaleFactorQ
  split
  · next hlt =>
      have h15 : (0 : ℚ) < MIN_TRANSIT_WIDTH_PERCENT := by norm_num [MIN_TRANSIT_WIDTH_PERCENT]
      have hf : 0 ≤ MIN_TRANSIT_WIDTH_PERCENT / smallestTransitWidthQ segments totalDuration :=
        div_nonneg h15.le hsm.le
      have hsf : smallestTransitWidthQ segments totalDuration
          * (MIN_TRANSIT_WIDTH_PERCENT / smallestTransitWidthQ segments totalDuration)
          = MIN_TRANSIT_WIDTH_PERCENT := by
        field_simp
      calc MIN_TRANSIT_WIDTH_PERCENT
          = smallestTransitWidthQ segments totalDuration
            * (MIN_TRANSIT_WIDTH_PERCENT / smallestTransitWidthQ segments totalDuration) :=
            hsf.symm
        _ ≤ e0.width
            * (MIN_TRANSIT_WIDTH_PERCENT / smallestTransitWidthQ segments totalDuration) :=
            mul_le_mul_of_nonneg_right hw hf
  · next hge =>
      push_neg at hge
      simpa using le_trans hge hw

theorem adjusted_facts (segments : List PlanSegment) (totalDuration : ℚ)
    (hpos : ∀ seg ∈ segments, seg.type = SegmentType.transit → 0 < seg.duration_minutes) :
    ∀ e ∈ adjustedWidthsQ segments totalDuration,
      (e.isTransit = true → MIN_TRANSIT_WIDTH_PERCENT ≤ e.width) ∧ 0 < e.width := by
  have hsc := scaled_transit_ge segments totalDuration hpos
  intro e he
  simp only [adjustedWidthsQ, List.mem_map] at he
  obtain ⟨e0, he0, rfl⟩ := he
  by_cases ht : e0.isTransit
  · rw [if_pos ht]
    have h15 := hsc e0 he0 ht
    refine ⟨fun _ => h15, ?_⟩
    have : (0 : ℚ) < MIN_TRANSIT_WIDTH_PERCENT := by norm_num [MIN_TRANSIT_WIDTH_PERCENT]
    linarith
  · rw [if_neg ht]
    constructor
    · intro hc
      simp at hc
      exact absurd hc ht
    · have h8 : (0 : ℚ) < MIN_WALK_WIDTH_PERCENT := by norm_num [MIN_WALK_WIDTH_PERCENT]
      have := le_max_right e0.width MIN_WALK_WIDTH_PERCENT
      simpa using lt_of_lt_of_le h8 this

theorem foldl_add_eq_sum (l : List WidthSegQ) :
    ∀ q : ℚ, l.foldl (fun sum seg => sum + seg.width) q
      = q + (l.map WidthSegQ.width).sum := by
  induction l with
  | nil => intro q; simp
  | cons s rest ih =>
      intro q
      simp only [List.foldl_cons, List.map_cons, List.sum_cons, ih]
      ring

theorem totalWidthQ_eq_sum (segments : List PlanSegment) (totalDuration : ℚ) :
    totalWidthQ segments totalDuration
      = ((adjustedWidthsQ segments totalDuration).map WidthSegQ.width).sum := by
  unfold totalWidthQ
  rw [foldl_add_eq_sum]
  ring

theorem sum_map_scale (l : List WidthSegQ) (c : ℚ) :
    ((l.map (fun seg => WidthSegQ.mk (seg.width * c) seg.isTransit seg.duration)).map
        WidthSegQ.width).sum
      = (l.map WidthSegQ.width).sum * c := by
  induction l with
  | nil => simp
  | cons s rest ih =>
      simp only [List.map_cons, List.sum_cons, ih]
      ring

/-- C1 (amended): the total duration fed to the layout is clamped to at
least 1, and whenever every transit-class leg has positive duration every
computed width is a positive finite number, in particular neither 0 nor
NaN; the per-leg zero-duration guard the claim states does not exist, see
the counterexample. -/
theorem layout_no_zero_width_c1 :
    (∀ plan : Plan, 1 ≤ computeTotalDuration plan)
    ∧ ∀ (segments : List PlanSegment) (totalDuration : ℚ),
        (∀ seg ∈ segments, seg.type = SegmentType.transit → 0 < seg.duration_minutes) →
        ∀ e ∈ computeFinalWidths segments totalDuration,
          ∃ q : ℚ, e.width = JsNum.num q ∧ 0 < q := by
  constructor
  · intro plan
    unfold computeTotalDuration
    exact le_max_left 1 _
  · intro segments totalDuration hpos e he
    have hsm := (smallestTransit_facts segments totalDuration hpos).1
    rw [computeFinalWidths_eq segments totalDuration (ne_of_gt hsm)] at he
    obtain ⟨e0, he0, rfl⟩ := List.mem_map.mp he
    refine ⟨e0.width, rfl, ?_⟩
    have hadj := adjusted_facts segments totalDuration hpos
    unfold computeFinalWidthsQ at he0
    split at he0
    · next hT =>
        obtain ⟨e1, he1, rfl⟩ := List.mem_map.mp he0
        have h1 := (hadj e1 he1).2
        have hc : 0 < (100 : ℚ) / totalWidthQ segments totalDuration := by
          apply div_pos <;> linarith
        simpa using mul_pos h1 hc
    · exact (hadj e0 he0).2

/-- Plan segments of the width positivity witness: a transit leg of
duration 10 and a walk leg of duration 5, total 15. -/
def exPosSegs : List PlanSegment :=
  [⟨SegmentType.transit, 0, 0, 1, 1, 10, some 1, some 2, some 3⟩,
   ⟨SegmentType.walk, 1, 1, 2, 2, 5, none, none, none⟩]

theorem layout_no_zero_width_c1_witness :
    1 ≤ computeTotalDuration ⟨some 15, exPosSegs⟩
      ∧ ∀ e ∈ computeFinalWidths exPosSegs 15,
          ∃ q : ℚ, e.width = JsNum.num q ∧ 0 < q :=
  ⟨layout_no_zero_width_c1.1 ⟨some 15, exPosSegs⟩,
   layout_no_zero_width_c1.2 exPosSegs 15 (by decide)⟩

/-- Plan segments of the zero-duration counterexample: a transit leg of
rawDurationMinutes 0 beside a walk leg of duration 5. -/
def exZeroSegs : List PlanSegment :=
  [⟨SegmentType.transit, 0, 0, 1, 1, 0, some 1, some 2, some 3⟩,
   ⟨SegmentType.walk, 1, 1, 2, 2, 5, none, none, none⟩]

/-- C1 counterexample: with a transit-class leg of rawDurationMinutes 0
beside a walk leg of duration 5 (total 5), the smallest transit width is 0,
the scale factor 15/0 is Infinity, and the transit leg's computed width is
0 times Infinity, NaN (the walk leg's is Infinity): the layout does not
treat a zero leg duration as at least 1, and a width fraction can be NaN. -/
theorem layout_zero_duration_cex :
    (computeFinalWidths exZeroSegs 5).map WidthSeg.width
      = [JsNum.nan, JsNum.posInf] := by
  norm_num [computeFinalWidths, adjustedWidthsJs, scaledWidthsJs, scaleFactorJs,
    smallestTransitWidthQ, trueProportionalWidthsQ, safeTotalDurationQ, totalWidthJs,
    exZeroSegs, MIN_TRANSIT_WIDTH_PERCENT, MIN_WALK_WIDTH_PERCENT,
    JsNum.mul, JsNum.div, JsNum.add, JsNum.lt, JsNum.max2, List.filter, List.foldl]

/-- C2: for a non-empty leg list with positive durations the computed
widths are the finite mirror's widths, which sum to at most 100; every
transit leg's width is at least 15 unless the final down-scale was
triggered (adjusted total above 100), and when it was triggered every final
width is the adjusted width multiplied by one positive factor, so the
ratios between transit legs' widths are preserved. -/
theorem layout_normalization_c2 (segments : List PlanSegment) (totalDuration : ℚ)
    (hne : segments ≠ [])
    (hpos : ∀ seg ∈ segments, 0 < seg.duration_minutes) :
    computeFinalWidths segments totalDuration
        = (computeFinalWidthsQ segments totalDuration).map WidthSegQ.lift
    ∧ ((computeFinalWidthsQ segments totalDuration).map WidthSegQ.width).sum ≤ 100
    ∧ (¬100 < totalWidthQ segments totalDuration →
        ∀ e ∈ computeFinalWidthsQ segments totalDuration, e.isTransit = true →
          MIN_TRANSIT_WIDTH_PERCENT ≤ e.width)
    ∧ (100 < totalWidthQ segments totalDuration →
        ∃ c : ℚ, 0 < c
          ∧ computeFinalWidthsQ segments totalDuration
            = (adjustedWidthsQ segments totalDuration).map (fun seg =>
                ⟨seg.width * c, seg.isTransit, seg.duration⟩)) := by
  have hpos2 : ∀ seg ∈ segments, seg.type = SegmentType.transit →
      0 < seg.duration_minutes :=
    fun seg h _ => hpos seg h
  have hsm := (smallestTransit_facts segments totalDuration hpos2).1
  have hadj := adjusted_facts segments totalDuration hpos2
  refine ⟨computeFinalWidths_eq segments totalDuration (ne_of_gt hsm), ?_, ?_, ?_⟩
  · unfold computeFinalWidthsQ
    by_cases hT : 100 < totalWidthQ segments totalDuration
    · rw [if_pos hT, sum_map_scale, ← totalWidthQ_eq_sum]
      have hT0 : totalWidthQ segments totalDuration ≠ 0 := by linarith
      have hc : totalWidthQ segments totalDuration
          * (100 / totalWidthQ segments totalDuration) = 100 := by
        field_simp
      rw [hc]
    · rw [if_neg hT, ← totalWidthQ_eq_sum]
      linarith
  · intro hT e he ht
    unfold computeFinalWidthsQ at he
    rw [if_neg hT] at he
    exact (hadj e he).1 ht
  · intro hT
    refine ⟨100 / totalWidthQ segments totalDuration,
      div_pos (by norm_num) (by linarith), ?_⟩
    unfold computeFinalWidthsQ
    rw [if_pos hT]

theorem layout_normalization_c2_witness :
    ((computeFinalWidthsQ exPosSegs 15).map WidthSegQ.width).sum ≤ 100 :=
  (layout_normalization_c2 exPosSegs 15 (by decide) (by decide)).2.1

/-- JS Math.atan2 over the reals; the IEEE signed-zero distinctions
collapse to the single real zero. -/
noncomputable def atan2 (y x : ℝ) : ℝ :=
  if 0 < x then Real.arctan (y / x)
  else if x < 0 then
    (if 0 ≤ y then Real.arctan (y / x) + Real.pi else Real.arctan (y / x) - Real.pi)
  else if 0 < y then Real.pi / 2
  else if y < 0 then -(Real.pi / 2)
  else 0

/-- BusStop record of the web app's types/locations.ts; the constant type
tag is omitted. -/
structure BusStop where
  id : String
  name : String
  lat : ℝ
  lng : ℝ

/-- Embedding of calculateDistance from app/utils/routes.ts lines 14-31:
the haversine great-circle distance in kilometers, JS floats idealized as
real numbers. -/
noncomputable def calculateDistance (point1 point2 : ℝ × ℝ) : ℝ :=
  let lat1 := point1.1
  let lat2 := point2.1
  let lng1 := point1.2
  let lng2 := point2.2
  let R : ℝ := 6371
  let dLat := (lat2 - lat1) * Real.pi / 180
  let dLng := (lng2 - lng1) * Real.pi / 180
  let a := Real.sin (dLat / 2) * Real.sin (dLat / 2)
    + Real.cos (lat1 * Real.pi / 180) * Real.cos (lat2 * Real.pi / 180)
      * Real.sin (dLng / 2) * Real.sin (dLng / 2)
  let c := 2 * atan2 (Real.sqrt a) (Real.sqrt (1 - a))
  R * c

theorem arctanNonneg {x : ℝ} (h : 0 ≤ x) : 0 ≤ Real.arctan x := by
  have hm := Real.arctan_strictMono.monotone h
  simpa [Real.arctan_zero] using hm

theorem atan2_nonneg (y x : ℝ) (hy : 0 ≤ y) (hx : 0 ≤ x) : 0 ≤ atan2 y x := by
  unfold atan2
  split
  · next hx0 => exact arctanNonneg (div_nonneg hy hx0.le)
  · split
    · next hx1 hx2 => linarith
    · split
      · next => positivity
      · split
        · next hy2 => linarith
        · exact le_refl 0

theorem calculateDistance_self (p : ℝ × ℝ) : calculateDistance p p = 0 := by
  simp only [calculateDistance]
  norm_num [Real.sin_zero, Real.sqrt_zero, Real.sqrt_one, atan2, Real.arctan_zero]

theorem calculateDistance_symm (p1 p2 : ℝ × ℝ) :
    calculateDistance p1 p2 = calculateDistance p2 p1 := by
  simp only [calculateDistance]
  have h1 : ∀ u v : ℝ,
      Real.sin ((u - v) * Real.pi / 180 / 2) * Real.sin ((u - v) * Real.pi / 180 / 2)
        = Real.sin ((v - u) * Real.pi / 180 / 2)
          * Real.sin ((v - u) * Real.pi / 180 / 2) := by
    intro u v
    rw [show (u - v) * Real.pi / 180 / 2 = -((v - u) * Real.pi / 180 / 2) by ring,
      Real.sin_neg]
    ring
  have h2 : ∀ c u v : ℝ,
      c * Real.sin ((u - v) * Real.pi / 180 / 2) * Real.sin ((u - v) * Real.pi / 180 / 2)
        = c * Real.sin ((v - u) * Real.pi / 180 / 2)
          * Real.sin ((v - u) * Real.pi / 180 / 2) := by
    intro c u v
    rw [show (u - v) * Real.pi / 180 / 2 = -((v - u) * Real.pi / 180 / 2) by ring,
      Real.sin_neg]
    ring
  rw [h1 p2.1 p1.1,
    h2 (Real.cos (p1.1 * Real.pi / 180) * Real.cos (p2.1 * Real.pi / 180)) p2.2 p1.2,
    mul_comm (Real.cos (p1.1 * Real.pi / 180)) (Real.cos (p2.1 * Real.pi / 180))]

theorem calculateDistance_nonneg (p1 p2 : ℝ × ℝ) : 0 ≤ calculateDistance p1 p2 := by
  simp only [calculateDistance]
  refine mul_nonneg (by norm_num) (mul_nonneg (by norm_num) ?_)
  exact atan2_nonneg _ _ (Real.sqrt_nonneg _) (Real.sqrt_nonneg _)

/-- C9: the haversine distance function is symmetric, zero on identical
points, and nonnegative (over all real coordinate values, geographic
points included). -/
theorem distance_symm_identity_c9 :
    (∀ p1 p2 : ℝ × ℝ, calculateDistance p1 p2 = calculateDistance p2 p1)
      ∧ (∀ p : ℝ × ℝ, calculateDistance p p = 0)
      ∧ ∀ p1 p2 : ℝ × ℝ, 0 ≤ calculateDistance p1 p2 :=
  ⟨calculateDistance_symm, calculateDistance_self, calculateDistance_nonneg⟩

/-- Haversine distance from the query point to a stop, as the scan computes
it. -/
noncomputable def stopDist (userLocation : ℝ × ℝ) (s : BusStop) : ℝ :=
  calculateDistance userLocation (s.lat, s.lng)

/-- Scan loop of findNearestBusStop (app/utils/routes.ts lines 43-49): the
JS for..of over the catalog, updating the running nearest stop on a
strictly smaller distance. -/
noncomputable def findNearestAux (userLocation : ℝ × ℝ) :
    List BusStop → BusStop → ℝ → BusStop
  | [], nearestStop, _ => nearestStop
  | stop :: rest, nearestStop, minDistance =>
      if calculateDistance userLocation (stop.lat, stop.lng) < minDistance then
        findNearestAux userLocation rest stop
          (calculateDistance userLocation (stop.lat, stop.lng))
      else findNearestAux userLocation rest nearestStop minDistance

/-- Embedding of findNearestBusStop from app/utils/routes.ts lines 36-52,
with the BUS_STOPS catalog as a parameter: on an empty catalog the JS code
reads a property of undefined and throws (the EmptyCatalog error of the
spec), modelled as none; otherwise the scan runs over the whole catalog,
seeded with its first stop. -/
noncomputable def findNearestBusStop (busStops : List BusStop)
    (userLocation : ℝ × ℝ) : Option BusStop :=
  match busStops with
  | [] => none
  | s :: _ =>
      some (findNearestAux userLocation busStops s
        (calculateDistance userLocation (s.lat, s.lng)))

/-- C7: the nearest-facility lookup fails exactly on the empty catalog (the
thrown EmptyCatalog error, which propagates to the caller, is the none
result); every non-empty catalog yields a stop. -/
theorem nearest_empty_catalog_c7 :
    (∀ userLocation : ℝ × ℝ, findNearestBusStop [] userLocation = none)
      ∧ ∀ (s : BusStop) (rest : List BusStop) (userLocation : ℝ × ℝ),
          ∃ b : BusStop, findNearestBusStop (s :: rest) userLocation = some b :=
  ⟨fun _ => rfl, fun s rest u =>
    ⟨findNearestAux u (s :: rest) s (calculateDistance u (s.lat, s.lng)), rfl⟩⟩

theorem findNearestAux_spec (u : ℝ × ℝ) :
    ∀ (l : List BusStop) (nearestStop : BusStop),
      stopDist u (findNearestAux u l nearestStop (stopDist u nearestStop))
          ≤ stopDist u nearestStop
      ∧ (∀ t ∈ l, stopDist u (findNearestAux u l nearestStop (stopDist u nearestStop))
            ≤ stopDist u t)
      ∧ (findNearestAux u l nearestStop (stopDist u nearestStop) = nearestStop
          ∨ ∃ l1 l2,
              l = l1 ++ findNearestAux u l nearestStop (stopDist u nearestStop) :: l2
              ∧ stopDist u (findNearestAux u l nearestStop (stopDist u nearestStop))
                  < stopDist u nearestStop
              ∧ ∀ t ∈ l1,
                  stopDist u (findNearestAux u l nearestStop (stopDist u nearestStop))
                    < stopDist u t) := by
  intro l
  induction l with
  | nil =>
      intro nearestStop
      exact ⟨le_refl _, by simp, Or.inl rfl⟩
  | cons stop rest ih =>
      intro nearestStop
      by_cases hlt : stopDist u stop < stopDist u nearestStop
      · have hred : findNearestAux u (stop :: rest) nearestStop (stopDist u nearestStop)
            = findNearestAux u rest stop (stopDist u stop) := by
          simp only [findNearestAux]
          rw [if_pos (show calculateDistance u (stop.lat, stop.lng)
            < stopDist u nearestStop from hlt)]
          rfl
        obtain ⟨hA, hB, hC⟩ := ih stop
        rw [hred]
        refine ⟨le_of_lt (lt_of_le_of_lt hA hlt), ?_, ?_⟩
        · intro t htl
          rcases List.mem_cons.mp htl with h | h
          · exact h ▸ hA
          · exact hB t h
        · rcases hC with hC | ⟨l1, l2, hsplit, hrel, hstrict⟩
          · refine Or.inr ⟨[], rest, ?_, ?_, by simp⟩
            · simp [hC]
            · rw [hC]
              exact hlt
          · refine Or.inr ⟨stop :: l1, l2, by rw [List.cons_append, ← hsplit],
              lt_trans hrel hlt, ?_⟩
            intro t htl
            rcases List.mem_cons.mp htl with h | h
            · exact h ▸ hrel
            · exact hstrict t h
      · have hred : findNearestAux u (stop :: rest) nearestStop (stopDist u nearestStop)
            = findNearestAux u rest nearestStop (stopDist u nearestStop) := by
          simp only [findNearestAux]
          rw [if_neg (show ¬calculateDistance u (stop.lat, stop.lng)
            < stopDist u nearestStop from hlt)]
        obtain ⟨hA, hB, hC⟩ := ih nearestStop
        rw [hred]
        refine ⟨hA, ?_, ?_⟩
        · intro t htl
          rcases List.mem_cons.mp htl with h | h
          · exact h ▸ le_trans hA (not_lt.mp hlt)
          · exact hB t h
        · rcases hC with hC | ⟨l1, l2, hsplit, hrel, hstrict⟩
          · exact Or.inl hC
          · refine Or.inr ⟨stop :: l1, l2, by rw [List.cons_append, ← hsplit],
              hrel, ?_⟩
            intro t htl
            rcases List.mem_cons.mp htl with h | h
            · exact h ▸ lt_of_lt_of_le hrel (not_lt.mp hlt)
            · exact hstrict t h

/-- Catalog stop A of the nearest-determinism example, at (0, 0). -/
def exStopA : BusStop := ⟨"A", "A", 0, 0⟩

/-- Catalog stop B of the nearest-determinism example, at (0, 0.001). -/
noncomputable def exStopB : BusStop := ⟨"B", "B", 0, 1 / 1000⟩

/-- C8: the lookup is a pure function of catalog and point, hence repeated
calls agree; for every non-empty catalog the returned stop minimizes the
haversine distance, and every stop strictly before it in catalog order is
strictly farther, so exact ties resolve to the first occurrence; on the
catalog [(0,0,A), (0,0.001,B)] with query point (0,0) it returns A. -/
theorem nearest_deterministic_c8 :
    (∀ (s : BusStop) (rest : List BusStop) (u : ℝ × ℝ),
        ∃ b : BusStop, findNearestBusStop (s :: rest) u = some b
          ∧ (∀ t ∈ s :: rest, stopDist u b ≤ stopDist u t)
          ∧ ∃ l1 l2, s :: rest = l1 ++ b :: l2
              ∧ ∀ t ∈ l1, stopDist u b < stopDist u t)
      ∧ findNearestBusStop [exStopA, exStopB] (0, 0) = some exStopA := by
  constructor
  · intro s rest u
    obtain ⟨hA, hB, hC⟩ := findNearestAux_spec u (s :: rest) s
    refine ⟨findNearestAux u (s :: rest) s (stopDist u s), rfl, hB, ?_⟩
    rcases hC with hC | ⟨l1, l2, hsplit, _, hstrict⟩
    · exact ⟨[], rest, by simp [hC], by simp⟩
    · exact ⟨l1, l2, hsplit, hstrict⟩
  · show some _ = some _
    congr 1
    have hA0 : calculateDistance (0, 0) (exStopA.lat, exStopA.lng) = 0 :=
      calculateDistance_self (0, 0)
    simp only [findNearestAux]
    rw [if_neg (lt_irrefl _), hA0,
      if_neg (not_lt.mpr (calculateDistance_nonneg _ _))]
